import Mathlib

/-!
# img_by_hand: the static file server started by `main`

`src/server/serve.go` is one function:

```go
func main() {
    fs := http.FileServer(http.Dir("/www/"))
    http.Handle("/", fs)

    http.ListenAndServe("0.0.0.0:8080", nil)
}
```

Part 0 is the lexical path cleaning that `net/http` applies to request paths
(`path.Clean` and `cleanPath` of Go's standard library, which the program calls
through `http.Handle` and `http.FileServer`).

Part 1 embeds `main` as a program over an explicit process state: the three calls
it makes are state transformers, the result of binding the listen address is an
input (`Env`), and `run` is the Go rule for how a process ends.

Part 2 is the file-serving algorithm of the specification (section 4.1), which the
repository delegates to `net/http` and does not contain.
-/

namespace GoPath

/-! ## Part 0: lexical path cleaning -/

/-- One path segment: the characters between two slashes. -/
abbrev Seg := List Char

/-- The segments of a slash-separated string. -/
def splitSlash : List Char → List Seg
  | [] => [[]]
  | c :: cs =>
    if c = '/' then [] :: splitSlash cs
    else
      match splitSlash cs with
      | [] => [[c]]
      | s :: ss => (c :: s) :: ss

/-- Collapsing the segments of a rooted path as `path.Clean` does, with a stack of
the segments kept so far (innermost first): an empty segment and `.` are dropped,
`..` removes the segment before it, and a `..` at the root is dropped. -/
def collapse : List Seg → List Seg → List Seg
  | stack, [] => stack.reverse
  | stack, s :: rest =>
    if s = [] ∨ s = ['.'] then collapse stack rest
    else if s = ['.', '.'] then
      match stack with
      | [] => collapse [] rest
      | _ :: up => collapse up rest
    else collapse (s :: stack) rest

/-- Segments joined by slashes. -/
def joinSlash : List Seg → List Char
  | [] => []
  | [s] => s
  | s :: t :: rest => s ++ '/' :: joinSlash (t :: rest)

/-- Function `path.Clean` on a rooted path: the shortest equivalent rooted path. -/
def Clean (p : List Char) : List Char := '/' :: joinSlash (collapse [] (splitSlash p))

/-- Function `cleanPath` of `net/http`: the canonical form of a request path. The
empty path is `/`; a path is made rooted and cleaned; a trailing slash is kept. -/
def cleanPathChars (p : List Char) : List Char :=
  if p = [] then ['/']
  else
    let rooted := if p.head? ≠ some '/' then '/' :: p else p
    let np := Clean rooted
    if rooted.getLast? = some '/' ∧ np ≠ ['/'] then np ++ ['/'] else np

/-- Function `cleanPath` of `net/http`, on strings. -/
def cleanPath (p : String) : String := String.mk (cleanPathChars p.toList)

end GoPath

namespace GoProc

/-! ## Part 1: the process that `main` runs -/

/-- Type `http.Dir`: the string naming the directory a file system is rooted at. -/
structure Dir where
  name : String
deriving DecidableEq, Repr

/-- Values of `http.Handler` that this program can build. -/
inductive Handler where
  | fileHandler (root : Dir)
deriving DecidableEq, Repr

/-- One call of `http.ListenAndServe(addr, handler)`; `handler = none` is Go's `nil`,
which makes the server use `DefaultServeMux`. -/
structure Server where
  addr : String
  handler : Option Handler
deriving DecidableEq, Repr

/-- The state of the running process that the calls of `main` read and change. -/
structure Process where
  /-- The entries of `http.DefaultServeMux`, in registration order. -/
  defaultServeMux : List (String × Handler)
  /-- Servers that have bound their address and are serving. -/
  servers : List Server
  /-- Every `ListenAndServe` call made so far, whether or not it could bind. -/
  listenCalls : List Server
  /-- Lines the process has written to standard output and standard error. -/
  output : List String
deriving DecidableEq, Repr

/-- A process as the Go runtime starts it: nothing registered, nothing written. -/
def Process.initial : Process :=
  { defaultServeMux := [], servers := [], listenCalls := [], output := [] }

/-- How a call ends: it returns a value, it panics, or it never returns. -/
inductive Result (α : Type) where
  | returned (value : α) (s : Process)
  | panicked (msg : String) (s : Process)
  | blocks (s : Process)
deriving Repr

/-- The process state a call leaves behind. -/
def Result.state {α : Type} : Result α → Process
  | .returned _ s => s
  | .panicked _ s => s
  | .blocks s => s

/-- A Go statement sequence: a function of the process state. -/
def Go (α : Type) : Type := Process → Result α

/-- Sequencing of statements: the next statement runs only if this one returned. -/
def Go.bind {α β : Type} (m : Go α) (f : α → Go β) : Go β := fun s =>
  match m s with
  | .returned a s1 => f a s1
  | .panicked msg s1 => .panicked msg s1
  | .blocks s1 => .blocks s1

instance : Monad Go where
  pure a := fun s => .returned a s
  bind := Go.bind

/-- What happens when a server tries to listen on an address: the bind fails with
an error, or it succeeds and the server then serves for ever or until an error. -/
inductive ListenOutcome where
  | bindError (err : String)
  | servesForever
  | servesUntil (err : String)
deriving DecidableEq, Repr

/-- The part of the world `main` depends on: what listening on an address does. -/
structure Env where
  listen : String → ListenOutcome

/-- Function `http.FileServer(root)`: a handler serving the tree rooted at `root`. -/
def FileServer (root : Dir) : Handler := .fileHandler root

/-- Function `http.Handle(pattern, handler)`: registers the handler for the pattern in
`DefaultServeMux`; it panics on an empty pattern and on a second registration of
the same pattern. -/
def Handle (pattern : String) (handler : Handler) : Go Unit := fun s =>
  if pattern = "" then .panicked "http: invalid pattern" s
  else if s.defaultServeMux.any (fun e => e.1 == pattern) then
    .panicked ("http: multiple registrations for " ++ pattern) s
  else .returned () { s with defaultServeMux := s.defaultServeMux ++ [(pattern, handler)] }

/-- Function `http.ListenAndServe(addr, handler)`: binds `addr` and serves. It returns
only with an error: at once when the bind fails, later when serving fails. -/
def ListenAndServe (env : Env) (addr : String) (handler : Option Handler) :
    Go (Option String) := fun s =>
  let call : Server := { addr := addr, handler := handler }
  let s1 := { s with listenCalls := s.listenCalls ++ [call] }
  match env.listen addr with
  | .bindError err => .returned (some err) s1
  | .servesForever => .blocks { s1 with servers := s1.servers ++ [call] }
  | .servesUntil err => .returned (some err) { s1 with servers := s1.servers ++ [call] }

/-- The program: `func main()` of `src/server/serve.go`. The value returned by
`http.ListenAndServe` is not bound to anything. -/
def main (env : Env) : Go Unit := do
  let fs := FileServer (Dir.mk "/www/")
  Handle "/" fs
  let _ ← ListenAndServe env "0.0.0.0:8080" none
  return ()

/-- How the process ends. -/
inductive Outcome where
  /-- The process exited with this status, having written these lines. -/
  | exited (status : Nat) (output : List String)
  /-- The process keeps running with these servers. -/
  | running (servers : List Server)
deriving DecidableEq, Repr

/-- The Go runtime around `main`: when `main` returns the program exits with status
0; a panic that reaches the top prints its message and exits with status 2; a
`main` that blocks keeps the process alive. -/
def run (prog : Go Unit) : Outcome :=
  match prog Process.initial with
  | .returned _ s => .exited 0 s.output
  | .panicked msg s => .exited 2 (s.output ++ ["panic: " ++ msg])
  | .blocks s => .running s.servers

/-- Method `ServeMux.match`: a pattern equal to the path wins; otherwise the longest
registered pattern ending in `/` that the path starts with. -/
def muxMatch (entries : List (String × Handler)) (path : String) : Option Handler :=
  match entries.find? (fun e => e.1 == path) with
  | some e => some e.2
  | none =>
    let subtree := entries.filter
      (fun e => e.1.toList.getLast? == some '/' && e.1.toList.isPrefixOf path.toList)
    (subtree.foldl
      (fun (best : Option (String × Handler)) e =>
        match best with
        | none => some e
        | some b => if b.1.length < e.1.length then some e else some b)
      none).map (fun e => e.2)

/-- Who answers a request: a registered handler, the mux itself with a redirect to
another path, or the mux itself with "not found". -/
inductive MuxAnswer where
  | handler (h : Handler)
  | redirect (target : String)
  | notFound
deriving DecidableEq, Repr

/-- Method `ServeMux.shouldRedirect`: no handler is registered for the path itself
but one is registered for the path followed by a slash. -/
def shouldRedirect (entries : List (String × Handler)) (path : String) : Bool :=
  if entries.any (fun e => e.1 == path) then false
  else if path.length = 0 then false
  else entries.any (fun e => e.1 == path ++ "/")

/-- Method `ServeMux.Handler` for a request other than `CONNECT`, on the escaped path
of the request, which is what the mux cleans: the path is cleaned with `cleanPath`;
a path whose clean form differs is answered by the mux itself with a redirect to
the clean form; otherwise the matching handler answers. -/
def muxHandler (entries : List (String × Handler)) (path : String) : MuxAnswer :=
  let cleaned := GoPath.cleanPath path
  if shouldRedirect entries cleaned then .redirect (cleaned ++ "/")
  else if cleaned ≠ path then .redirect cleaned
  else
    match muxMatch entries path with
    | some h => .handler h
    | none => .notFound

/-- Who answers a request path at a server: its own handler, or for a `nil` handler
whatever `DefaultServeMux` decides. -/
def dispatch (s : Process) (srv : Server) (path : String) : MuxAnswer :=
  match srv.handler with
  | some h => .handler h
  | none => muxHandler s.defaultServeMux path

/-- The exit status of a process that has exited. -/
def Outcome.exitStatus : Outcome → Option Nat
  | .exited status _ => some status
  | .running _ => none

/-- What a process that has exited wrote; nothing is known of a running one. -/
def Outcome.written : Outcome → List String
  | .exited _ out => out
  | .running _ => []

/-- An environment in which port 8080 is already in use. -/
def envPortInUse : Env :=
  { listen := fun _ => .bindError "listen tcp 0.0.0.0:8080: bind: address already in use" }

/-- An environment in which the bind succeeds and the server serves for ever. -/
def envServing : Env := { listen := fun _ => .servesForever }

end GoProc

namespace StaticFiles

/-! ## Part 2: the file-serving algorithm of the specification

`http.FileServer` and the operating system's name resolution are not code of this
repository. The definitions of this part follow section 4.1 of the specification
(`Serve(rootDir, requestPath) -> Response`) sentence by sentence, except for the
guard of step 3, which section 9 says the program does not have: a `..` above the
root is dropped, as `path.Clean` does. The choices the specification leaves to the
implementer are fields of `Policy`. -/

/-- One path segment: the characters between two slashes. -/
abbrev Seg := GoPath.Seg

/-- An absolute filesystem path, as the list of its segments below `/`. -/
abbrev FsPath := List Seg

/-- File content: a list of bytes. -/
abbrev Bytes := List Nat

/-- Modelled from the spec: what a filesystem holds under one name, the entries the
stat of step 4 can meet (the operating system is not part of the repository). -/
inductive Node where
  | absent
  | denied
  | file (content : Bytes)
  | dir (entries : List Seg)
  | symlink (target : FsPath)
deriving DecidableEq, Repr

/-- Modelled from the spec: the filesystem that the stat of step 4 consults (the
operating system is not part of the repository): each absolute name holds a node. -/
abbrev FS := FsPath → Node

/-- Modelled from the spec: the result of the stat step, the tagged variant of
section 9: `NotFound`, `PermissionDenied`, `File(size, handle)`, `Directory(entries)`. -/
inductive StatResult where
  | notFound
  | permissionDenied
  | file (size : Nat) (content : Bytes)
  | directory (entries : List Seg)
deriving DecidableEq, Repr

/-- Modelled from the spec: one pass of the name resolution behind the stat of step
4 (the operating system is not part of the repository): it ends with a result, or
meets a symbolic link and continues at the link target. -/
inductive Walk where
  | done (r : StatResult)
  | jump (target : FsPath)
deriving DecidableEq, Repr

/-- Modelled from the spec: name resolution below `cur` for the remaining segments,
as the stat of step 4 performs it (the operating system is not part of the
repository). A symbolic link met on the way is followed. -/
def walkOnce (fs : FS) : FsPath → FsPath → Walk
  | cur, [] =>
    match fs cur with
    | .symlink t => .jump t
    | .dir es => .done (.directory es)
    | .file c => .done (.file c.length c)
    | .absent => .done .notFound
    | .denied => .done .permissionDenied
  | cur, seg :: rest =>
    match fs (cur ++ [seg]) with
    | .symlink t => .jump (t ++ rest)
    | .dir es =>
      match rest with
      | [] => .done (.directory es)
      | _ :: _ => walkOnce fs (cur ++ [seg]) rest
    | .file c =>
      match rest with
      | [] => .done (.file c.length c)
      | _ :: _ => .done .notFound
    | .absent => .done .notFound
    | .denied => .done .permissionDenied

/-- Modelled from the spec: the stat of step 4 following at most `hops` symbolic
links (the operating system is not part of the repository); a longer chain fails
like a permission error, the "or similar" of step 4. -/
def statFuel (fs : FS) : Nat → FsPath → StatResult
  | 0, _ => .permissionDenied
  | hops + 1, p =>
    match walkOnce fs [] p with
    | .done r => r
    | .jump q => statFuel fs hops q

/-- The number of symbolic links one resolution follows. -/
def maxSymlinks : Nat := 40

/-- Modelled from the spec: "perform a single filesystem stat" (step 4); the
operating system call is not part of the repository. -/
def stat (fs : FS) (p : FsPath) : StatResult := statFuel fs (maxSymlinks + 1) p

/-- The value of one hexadecimal digit. -/
def hexVal (c : Char) : Option Nat :=
  if '0' ≤ c ∧ c ≤ '9' then some (c.toNat - '0'.toNat)
  else if 'a' ≤ c ∧ c ≤ 'f' then some (c.toNat - 'a'.toNat + 10)
  else if 'A' ≤ c ∧ c ≤ 'F' then some (c.toNat - 'A'.toNat + 10)
  else none

/-- Modelled from the spec: step 1, "percent-decode `requestPath` per standard URL
decoding rules" (`net/http`, which decodes the path for `http.FileServer`, is not
part of the repository). Each `%XY` becomes the character with code `XY`; `none`,
the 400 of step 1, when a `%` is not followed by two hexadecimal digits. -/
def percentDecode : List Char → Option (List Char)
  | [] => some []
  | c :: rest =>
    if c = '%' then
      match rest with
      | h :: l :: rest2 =>
        match hexVal h, hexVal l with
        | some a, some b => (percentDecode rest2).map (fun d => Char.ofNat (16 * a + b) :: d)
        | _, _ => none
      | _ => none
    else (percentDecode rest).map (fun d => c :: d)

/-- Modelled from the spec: step 2, "collapse `.` and `..` segments logically (not
by filesystem lookup) to compute the path's lexical target relative to the root".
The guard of step 3 is not in the program (section 9): `http.FileServer`, which is
not part of the repository, cleans the path with `path.Clean`, so a `..` that would
ascend above the root is dropped there. -/
def normalize (decoded : List Char) : FsPath := GoPath.collapse [] (GoPath.splitSlash decoded)

/-- Whether reading the segments from depth `depth` below the root meets a `..` that
ascends above the root. -/
def ascendsAbove : Nat → List Seg → Bool
  | _, [] => false
  | depth, s :: rest =>
    if s = [] ∨ s = ['.'] then ascendsAbove depth rest
    else if s = ['.', '.'] then
      match depth with
      | 0 => true
      | d + 1 => ascendsAbove d rest
    else ascendsAbove (depth + 1) rest

/-- A request path that contains, in some encoding, a `..` segment ascending above
the root: it decodes, and its decoded segments ascend from depth 0. -/
def traversesAboveRoot (requestPath : List Char) : Prop :=
  ∃ decoded, percentDecode requestPath = some decoded ∧
    ascendsAbove 0 (GoPath.splitSlash decoded) = true

/-- The status of the trailing-slash redirect: 301 or 308 (step 4). -/
inductive RedirectPolicy where
  | movedPermanently
  | permanentRedirect
deriving DecidableEq, Repr

/-- What a directory without an index file gets: 403 or a generated listing. -/
inductive ListingPolicy where
  | disabled
  | enabled
deriving DecidableEq, Repr

/-- Modelled from the spec: the choices section 4.1 leaves to the implementer
("policy choice, document it"); `http.FileServer`, which makes them for the
program, is not part of the repository. -/
structure Policy where
  redirect : RedirectPolicy
  listing : ListingPolicy
  /-- The static extension-to-MIME-type mapping. -/
  mime : List Char → Option String
  /-- The generic body of an error response, by status. -/
  errorBody : Nat → Bytes
  /-- The body of a generated directory listing. -/
  renderListing : List Seg → Bytes

def RedirectPolicy.status : RedirectPolicy → Nat
  | .movedPermanently => 301
  | .permanentRedirect => 308

/-- Modelled from the spec: the Response of section 3, "status code, header set,
and a byte stream". -/
structure Response where
  status : Nat
  contentType : Option String
  contentLength : Option Nat
  location : Option (List Char)
  body : Bytes
deriving DecidableEq, Repr

/-- Modelled from the spec: an error response, carrying the "minimal, non-leaking
body" of section 7 for its status (`http.FileServer` is not part of the
repository). -/
def errorResponse (pol : Policy) (status : Nat) : Response :=
  { status := status, contentType := some "text/plain",
    contentLength := some (pol.errorBody status).length, location := none,
    body := pol.errorBody status }

/-- The extension of a file name: what follows its last dot, if it has one. -/
def extensionOf (name : Seg) : Option (List Char) :=
  if '.' ∈ name then some (name.reverse.takeWhile (fun c => c ≠ '.')).reverse else none

/-- Modelled from the spec: the "serve file" path of step 4: content type from the
extension with a generic binary fallback, `Content-Length` from the size of the
stat, the bytes of the file as body (`http.FileServer` is not part of the
repository). -/
def serveFile (pol : Policy) (name : Seg) (size : Nat) (content : Bytes) : Response :=
  { status := 200,
    contentType := some (((extensionOf name).bind pol.mime).getD "application/octet-stream"),
    contentLength := some size, location := none, body := content }

/-- The conventional index file. -/
def indexName : Seg := "index.html".toList

/-- Modelled from the spec: steps 1, 2 and 4 up to the join: the name the request
path is looked up under, `rootDir` joined with the normalized decoded path; `none`
when the path does not decode (`http.FileServer` is not part of the repository). -/
def lookedUp (rootDir : FsPath) (requestPath : List Char) : Option FsPath :=
  (percentDecode requestPath).map (fun decoded => rootDir ++ normalize decoded)

/-- Modelled from the spec: step 4 from the stat on: the response for the candidate
name, by what the stat finds there (`http.FileServer` is not part of the
repository). -/
def respond (pol : Policy) (fs : FS) (requestPath : List Char) (candidate : FsPath) :
    Response :=
  match stat fs candidate with
  | .notFound => errorResponse pol 404
  | .permissionDenied => errorResponse pol 403
  | .directory entries =>
    if requestPath.getLast? ≠ some '/' then
      { status := pol.redirect.status, contentType := none, contentLength := some 0,
        location := some (requestPath ++ ['/']), body := [] }
    else
      match stat fs (candidate ++ [indexName]) with
      | .file size content => serveFile pol indexName size content
      | _ =>
        match pol.listing with
        | .disabled => errorResponse pol 403
        | .enabled =>
          { status := 200, contentType := some "text/html",
            contentLength := some (pol.renderListing entries).length, location := none,
            body := pol.renderListing entries }
  | .file size content => serveFile pol (candidate.getLast?.getD []) size content

/-- Modelled from the spec: `Serve(rootDir, requestPath) -> Response` of section 4.1,
the pipeline Decode, Normalize, Stat, Dispatch. The Guard of step 3 is not in the
program (section 9): `http.FileServer`, which the program calls for this and which
is not part of the repository, clamps `..` at the root instead of rejecting it. -/
def Serve (pol : Policy) (fs : FS) (rootDir : FsPath) (requestPath : List Char) : Response :=
  match lookedUp rootDir requestPath with
  | none => errorResponse pol 400
  | some candidate => respond pol fs requestPath candidate

/-- The segments of the directory an `http.Dir` names. -/
def rootOf (d : GoProc.Dir) : FsPath :=
  (GoPath.splitSlash d.name.toList).filter (fun s => s ≠ [])

/-- The root directory of the file server `main` builds. -/
def wwwRoot : FsPath := rootOf (GoProc.Dir.mk "/www/")

/-- Two filesystems hold the same node under every name inside the root. -/
def AgreeInside (root : FsPath) (fs1 fs2 : FS) : Prop :=
  ∀ p : FsPath, root <+: p → fs1 p = fs2 p

/-- Every symbolic link held under a name inside the root points to a name inside
the root. -/
def LinksStayInside (root : FsPath) (fs : FS) : Prop :=
  ∀ p : FsPath, root <+: p → ∀ t, fs p = .symlink t → root <+: t

/-- A policy for the examples: 301 redirects, no listings. -/
def plainPolicy : Policy :=
  { redirect := .movedPermanently, listing := .disabled,
    mime := fun ext => if ext = "txt".toList then some "text/plain" else none,
    errorBody := fun _ => [101, 114, 114, 111, 114],
    renderListing := fun _ => [] }

/-- A filesystem with `/www/link`, a symbolic link to `/etc/passwd`, whose content is
the parameter. -/
def fsWithLink (secret : Bytes) : FS := fun p =>
  if p = ["www".toList] then .dir ["link".toList]
  else if p = ["www".toList, "link".toList] then .symlink ["etc".toList, "passwd".toList]
  else if p = ["etc".toList] then .dir ["passwd".toList]
  else if p = ["etc".toList, "passwd".toList] then .file secret
  else .absent

/-- A filesystem whose only link stays inside the root: `/www/` holds `foo.txt` and
`alias`, a symbolic link to `/www/foo.txt`; `/etc/passwd` holds the parameter. -/
def fsPlain (secret : Bytes) : FS := fun p =>
  if p = ["www".toList] then .dir ["alias".toList, "foo.txt".toList]
  else if p = ["www".toList, "foo.txt".toList] then .file [104, 105]
  else if p = ["www".toList, "alias".toList] then .symlink ["www".toList, "foo.txt".toList]
  else if p = ["etc".toList] then .dir ["passwd".toList]
  else if p = ["etc".toList, "passwd".toList] then .file secret
  else .absent

end StaticFiles

/-! ## Theorems about `main` -/

namespace GoPath

/-- A cleaned request path begins with a slash. -/
theorem cleanPathChars_head (p : List Char) : ∃ r, cleanPathChars p = '/' :: r := by
  unfold cleanPathChars
  by_cases hp : p = []
  · exact ⟨[], by simp [hp]⟩
  · simp only [hp, if_false]
    split_ifs
    · exact ⟨_, by simp [Clean]; rfl⟩
    · exact ⟨_, rfl⟩
    · exact ⟨_, by simp [Clean]; rfl⟩
    · exact ⟨_, rfl⟩

/-- Collapsing keeps only ordinary segments: none is empty, `.` or `..`. -/
theorem collapse_ordinary (segs : List Seg) :
    ∀ stack : List Seg, (∀ s ∈ stack, s ≠ [] ∧ s ≠ ['.'] ∧ s ≠ ['.', '.']) →
      ∀ s ∈ collapse stack segs, s ≠ [] ∧ s ≠ ['.'] ∧ s ≠ ['.', '.'] := by
  induction segs with
  | nil =>
    intro stack hst s hs
    simp only [collapse, List.mem_reverse] at hs
    exact hst s hs
  | cons seg rest ih =>
    intro stack hst
    unfold collapse
    by_cases h1 : seg = [] ∨ seg = ['.']
    · simp only [h1, if_true]; exact ih stack hst
    · simp only [h1, if_false]
      by_cases h2 : seg = ['.', '.']
      · simp only [h2, if_true]
        cases stack with
        | nil => exact ih [] hst
        | cons top up => exact ih up (fun s hs => hst s (List.mem_cons_of_mem _ hs))
      · simp only [h2, if_false]
        refine ih (seg :: stack) (fun s hs => ?_)
        rcases List.mem_cons.1 hs with rfl | hs
        · exact ⟨fun h => h1 (Or.inl h), fun h => h1 (Or.inr h), h2⟩
        · exact hst s hs

end GoPath

namespace GoProc

/-- With only the pattern `/` registered, the mux never redirects to a path with a
slash appended. -/
theorem shouldRedirect_root (h : Handler) (q : String) :
    shouldRedirect [("/", h)] q = false := by
  unfold shouldRedirect
  by_cases h1 : ([("/", h)] : List (String × Handler)).any (fun e => e.1 == q) = true
  · simp only [h1, if_true]
  · by_cases h2 : q.length = 0
    · simp only [h1, h2, if_true]
      rfl
    · simp only [h1, h2, if_false]
      have hne : ("/" : String) ≠ q ++ "/" := by
        intro h3
        have hlen := congrArg String.length h3
        simp only [String.length_append] at hlen
        have h1len : ("/" : String).length = 1 := rfl
        omega
      simp [hne]

/-- The pattern `/` matches every path that begins with a slash. -/
theorem muxMatch_root (h : Handler) (p : String) (r : List Char) (hp : p.toList = '/' :: r) :
    muxMatch [("/", h)] p = some h := by
  have h1 : ("/" : String).toList = ['/'] := rfl
  have hp2 : p.data = '/' :: r := hp
  unfold muxMatch
  cases hb : (("/" : String) == p) <;>
    simp [List.find?, hb, List.filter, List.isPrefixOf, hp2, h1]

/-- With only the pattern `/` registered, the mux hands a path to the handler
exactly when the path is in clean form, and redirects to the clean form otherwise. -/
theorem muxHandler_root (h : Handler) (p : String) :
    muxHandler [("/", h)] p =
      if GoPath.cleanPath p = p then MuxAnswer.handler h
      else MuxAnswer.redirect (GoPath.cleanPath p) := by
  unfold muxHandler
  simp only [shouldRedirect_root, Bool.false_eq_true, if_false]
  by_cases hc : GoPath.cleanPath p = p
  · obtain ⟨r, hr⟩ := GoPath.cleanPathChars_head p.toList
    have hp : p.toList = '/' :: r := by
      rw [← hr]
      conv_lhs => rw [← hc]
      rfl
    simp [hc, muxMatch_root h p r hp]
  · simp [hc]

/-- The state `main` leaves behind has the one entry `/` in `DefaultServeMux`. -/
theorem main_defaultServeMux (env : Env) :
    (main env Process.initial).state.defaultServeMux =
      [("/", FileServer (Dir.mk "/www/"))] := by
  simp only [main, bind, Go.bind, Handle, ListenAndServe, FileServer, Process.initial]
  cases h : env.listen "0.0.0.0:8080" <;> simp [Result.state, pure]

/-- C3, as stated, fails. With port 8080 already in use the bind fails, and the
process that runs `main` exits with status 0 having written nothing: neither a
non-zero exit status nor a diagnostic message. -/
theorem main_bind_failure_exits_zero_counterexample :
    envPortInUse.listen "0.0.0.0:8080" =
        .bindError "listen tcp 0.0.0.0:8080: bind: address already in use" ∧
      (run (main envPortInUse)).exitStatus = some 0 ∧
      (run (main envPortInUse)).written = [] ∧
      ¬ (∃ status out, run (main envPortInUse) = .exited status out ∧ status ≠ 0 ∧ out ≠ []) := by
  refine ⟨rfl, rfl, rfl, ?_⟩
  rintro ⟨status, out, h, hs, _⟩
  have h0 : run (main envPortInUse) = .exited 0 [] := rfl
  rw [h0] at h
  injection h with h1 h2
  exact hs h1.symm

/-- C3, amended. Whenever binding the listen address fails, `main` discards the error
and returns at once: the process terminates without having started a server, with
exit status 0 and without any diagnostic message. -/
theorem main_bind_failure_exits_zero_silently (env : Env) (err : String)
    (h : env.listen "0.0.0.0:8080" = .bindError err) :
    run (main env) = .exited 0 [] ∧ (main env Process.initial).state.servers = [] := by
  simp [run, main, bind, Go.bind, Handle, ListenAndServe, FileServer, Process.initial, h,
    Result.state]

/-- The amended C3 at the environment in which port 8080 is already in use. -/
theorem main_bind_failure_exits_zero_silently_witness :
    run (main envPortInUse) = .exited 0 [] ∧
      (main envPortInUse Process.initial).state.servers = [] :=
  main_bind_failure_exits_zero_silently envPortInUse
    "listen tcp 0.0.0.0:8080: bind: address already in use" rfl

/-- C9, as stated, fails. The server `main` starts does not hand every request path
to the file server: for the path `//foo` (and `/a/../b`, `/./x`) `DefaultServeMux`
answers itself, with a redirect to the clean form of the path. -/
theorem main_unclean_path_redirected_counterexample :
    dispatch (main envServing Process.initial).state ⟨"0.0.0.0:8080", none⟩ "//foo" =
        MuxAnswer.redirect "/foo" ∧
      dispatch (main envServing Process.initial).state ⟨"0.0.0.0:8080", none⟩ "/a/../b" =
        MuxAnswer.redirect "/b" ∧
      dispatch (main envServing Process.initial).state ⟨"0.0.0.0:8080", none⟩ "/./x" =
        MuxAnswer.redirect "/x" ∧
      dispatch (main envServing Process.initial).state ⟨"0.0.0.0:8080", none⟩ "//foo" ≠
        MuxAnswer.handler (FileServer (Dir.mk "/www/")) := by
  decide

/-- C9, amended. Whatever the environment, `main` makes exactly one `ListenAndServe`
call, for the address `0.0.0.0:8080` with a `nil` handler; the only server that can
start is that one; `DefaultServeMux` then holds exactly one entry, the pattern `/`
with the file server rooted at `/www/`; and that server hands a request path to
this file server exactly when the path is in clean form, answering any other path
itself with a redirect to the clean form. -/
theorem main_configuration_fixed_clean_dispatch (env : Env) :
    (main env Process.initial).state.listenCalls = [⟨"0.0.0.0:8080", none⟩] ∧
      (main env Process.initial).state.servers =
        (match env.listen "0.0.0.0:8080" with
          | .bindError _ => []
          | _ => [⟨"0.0.0.0:8080", none⟩]) ∧
      (main env Process.initial).state.defaultServeMux =
        [("/", FileServer (Dir.mk "/www/"))] ∧
      ∀ path : String,
        dispatch (main env Process.initial).state ⟨"0.0.0.0:8080", none⟩ path =
          if GoPath.cleanPath path = path then
            MuxAnswer.handler (Handler.fileHandler (Dir.mk "/www/"))
          else MuxAnswer.redirect (GoPath.cleanPath path) := by
  refine ⟨?_, ?_, main_defaultServeMux env, ?_⟩
  · simp only [main, bind, Go.bind, Handle, ListenAndServe, FileServer, Process.initial]
    cases h : env.listen "0.0.0.0:8080" <;> simp [Result.state, pure]
  · simp only [main, bind, Go.bind, Handle, ListenAndServe, FileServer, Process.initial]
    cases h : env.listen "0.0.0.0:8080" <;> simp [Result.state, pure]
  · intro path
    simp only [dispatch, main_defaultServeMux env, FileServer]
    exact muxHandler_root _ path

/-- The amended C9 at the environment in which the bind succeeds: the process keeps
running with the one server on `0.0.0.0:8080`, which hands the clean path
`/foo.txt` to the file server rooted at `/www/` and redirects `/a/../b` to `/b`. -/
theorem main_configuration_fixed_clean_dispatch_witness :
    run (main envServing) = .running [⟨"0.0.0.0:8080", none⟩] ∧
      dispatch (main envServing Process.initial).state ⟨"0.0.0.0:8080", none⟩ "/foo.txt" =
        MuxAnswer.handler (Handler.fileHandler (Dir.mk "/www/")) ∧
      dispatch (main envServing Process.initial).state ⟨"0.0.0.0:8080", none⟩ "/a/../b" =
        MuxAnswer.redirect "/b" :=
  ⟨rfl,
    ((main_configuration_fixed_clean_dispatch envServing).2.2.2 "/foo.txt").trans
      (if_pos (by decide)),
    ((main_configuration_fixed_clean_dispatch envServing).2.2.2 "/a/../b").trans
      (if_neg (by decide))⟩

end GoProc

/-! ## Theorems about the file-serving algorithm -/

namespace StaticFiles

/-- The root of the file server of `main` is the one segment `www`. -/
theorem wwwRoot_eq : wwwRoot = [['w', 'w', 'w']] := by decide

/-- Below the root, resolution reads only names inside the root: two filesystems
that agree there resolve alike, and a link met on the way leads inside the root
when every link inside the root does. -/
theorem walkOnce_inside (fs1 fs2 : FS) (www : Seg)
    (hagree : AgreeInside [www] fs1 fs2) (hin : LinksStayInside [www] fs1) (rest : FsPath) :
    ∀ c : FsPath, walkOnce fs1 (www :: c) rest = walkOnce fs2 (www :: c) rest ∧
      ∀ q, walkOnce fs1 (www :: c) rest = .jump q → [www] <+: q := by
  induction rest with
  | nil =>
    intro c
    have hp : [www] <+: www :: c := ⟨c, rfl⟩
    have h12 := hagree _ hp
    have hl := hin _ hp
    unfold walkOnce
    rw [← h12]
    cases h : fs1 (www :: c) with
    | symlink t =>
      refine ⟨rfl, fun q hq => ?_⟩
      simp only [Walk.jump.injEq] at hq
      exact hq ▸ hl t h
    | absent => simp
    | denied => simp
    | file content => simp
    | dir es => simp
  | cons seg rest ih =>
    intro c
    have hp : [www] <+: (www :: c) ++ [seg] := ⟨c ++ [seg], rfl⟩
    have h12 := hagree _ hp
    have hl := hin _ hp
    unfold walkOnce
    rw [← h12]
    cases h : fs1 ((www :: c) ++ [seg]) with
    | symlink t =>
      refine ⟨rfl, fun q hq => ?_⟩
      simp only [Walk.jump.injEq] at hq
      obtain ⟨u, hu⟩ := hl t h
      exact ⟨u ++ rest, by rw [← hq, ← hu]; simp⟩
    | absent => simp
    | denied => simp
    | file content => cases rest <;> simp
    | dir es =>
      cases rest with
      | nil => simp
      | cons s2 r2 => simpa using ih (c ++ [seg])

/-- Resolution of a name that starts with the root segment, from the top. -/
theorem walkOnce_top (fs1 fs2 : FS) (www : Seg)
    (hagree : AgreeInside [www] fs1 fs2) (hin : LinksStayInside [www] fs1) (rel : FsPath) :
    walkOnce fs1 [] (www :: rel) = walkOnce fs2 [] (www :: rel) ∧
      ∀ q, walkOnce fs1 [] (www :: rel) = .jump q → [www] <+: q := by
  have hp : [www] <+: [] ++ [www] := ⟨[], rfl⟩
  have h12 := hagree _ hp
  have hl := hin _ hp
  unfold walkOnce
  rw [← h12]
  cases h : fs1 ([] ++ [www]) with
  | symlink t =>
    refine ⟨rfl, fun q hq => ?_⟩
    simp only [Walk.jump.injEq] at hq
    obtain ⟨u, hu⟩ := hl t h
    exact ⟨u ++ rel, by rw [← hq, ← hu]; simp⟩
  | absent => simp
  | denied => simp
  | file content => cases rel <;> simp
  | dir es =>
    cases rel with
    | nil => simp
    | cons s2 r2 => simpa using walkOnce_inside fs1 fs2 www hagree hin (s2 :: r2) []

/-- With any bound on the links followed, the stat of a name inside a one-segment
root is the same in two filesystems that agree inside the root, when the links
inside the root stay inside it. -/
theorem statFuel_inside (fs1 fs2 : FS) (www : Seg)
    (hagree : AgreeInside [www] fs1 fs2) (hin : LinksStayInside [www] fs1) (hops : Nat) :
    ∀ rel : FsPath, statFuel fs1 hops (www :: rel) = statFuel fs2 hops (www :: rel) := by
  induction hops with
  | zero => intro rel; rfl
  | succ n ih =>
    intro rel
    obtain ⟨heq, hjump⟩ := walkOnce_top fs1 fs2 www hagree hin rel
    unfold statFuel
    rw [← heq]
    cases hw : walkOnce fs1 [] (www :: rel) with
    | done r => rfl
    | jump q =>
      obtain ⟨u, hu⟩ := hjump q hw
      have hq : q = www :: u := by simpa using hu.symm
      simpa [hq] using ih u

/-- The stat of a name inside a one-segment root is the same in two filesystems
that agree inside the root, when the links inside the root stay inside it. -/
theorem stat_inside (fs1 fs2 : FS) (www : Seg)
    (hagree : AgreeInside [www] fs1 fs2) (hin : LinksStayInside [www] fs1) (rel : FsPath) :
    stat fs1 (www :: rel) = stat fs2 (www :: rel) :=
  statFuel_inside fs1 fs2 www hagree hin _ rel

/-- The two filesystems with the link agree on every name inside `/www/`. -/
theorem fsWithLink_agree (a b : Bytes) : AgreeInside wwwRoot (fsWithLink a) (fsWithLink b) := by
  intro p hp
  rw [wwwRoot_eq] at hp
  obtain ⟨q, rfl⟩ := hp
  simp [fsWithLink]

/-- Two filesystems `fsPlain` agree on every name inside `/www/`. -/
theorem fsPlain_agree (a b : Bytes) : AgreeInside wwwRoot (fsPlain a) (fsPlain b) := by
  intro p hp
  rw [wwwRoot_eq] at hp
  obtain ⟨q, rfl⟩ := hp
  simp [fsPlain]

/-- The one link of the filesystem `fsPlain` points inside `/www/`. -/
theorem fsPlain_linksStayInside (a : Bytes) : LinksStayInside wwwRoot (fsPlain a) := by
  intro p _ t ht
  rw [wwwRoot_eq]
  unfold fsPlain at ht
  split_ifs at ht
  simp only [Node.symlink.injEq] at ht
  exact ⟨["foo.txt".toList], by rw [← ht]; rfl⟩

/-- C1, as stated, fails. Two filesystems that agree on every name inside `/www/`
(both hold the link `/www/link` to `/etc/passwd`) and differ only in the content of
`/etc/passwd` answer the request `/link` differently: each answers 200 with the
content of its own `/etc/passwd`, an entry outside the root. -/
theorem serve_symlink_exposes_outside_counterexample :
    AgreeInside wwwRoot (fsWithLink [1]) (fsWithLink [2]) ∧
      (Serve plainPolicy (fsWithLink [1]) wwwRoot "/link".toList).status = 200 ∧
      (Serve plainPolicy (fsWithLink [1]) wwwRoot "/link".toList).body = [1] ∧
      (Serve plainPolicy (fsWithLink [2]) wwwRoot "/link".toList).body = [2] ∧
      Serve plainPolicy (fsWithLink [1]) wwwRoot "/link".toList ≠
        Serve plainPolicy (fsWithLink [2]) wwwRoot "/link".toList :=
  ⟨fsWithLink_agree [1] [2], by decide, by decide, by decide, by decide⟩

/-- C1, amended. When every symbolic link inside `/www/` points to a name inside
`/www/`, then for every request path (whatever its percent-encoding, `..` segments
or trailing slash) and any two filesystems that agree on everything inside `/www/`,
the same request yields the same response. -/
theorem serve_same_response_links_inside (pol : Policy) (fs1 fs2 : FS)
    (requestPath : List Char)
    (hagree : AgreeInside wwwRoot fs1 fs2) (hin : LinksStayInside wwwRoot fs1) :
    Serve pol fs1 wwwRoot requestPath = Serve pol fs2 wwwRoot requestPath := by
  rw [wwwRoot_eq] at hagree hin ⊢
  unfold Serve lookedUp
  cases percentDecode requestPath with
  | none => rfl
  | some decoded =>
    have h1 := stat_inside fs1 fs2 _ hagree hin (normalize decoded)
    have h2 := stat_inside fs1 fs2 _ hagree hin (normalize decoded ++ [indexName])
    simp only [Option.map_some', respond, List.singleton_append, List.cons_append,
      List.nil_append] at h1 h2 ⊢
    rw [h1, h2]

/-- The amended C1 at two filesystems that differ in `/etc/passwd` and whose one link
`/www/alias` points to `/www/foo.txt`: the request `/a/%2e%2e/alias` gets the same
response, the 200 with the two bytes of `/www/foo.txt`. -/
theorem serve_same_response_links_inside_witness :
    Serve plainPolicy (fsPlain [1]) wwwRoot "/a/%2e%2e/alias".toList =
        Serve plainPolicy (fsPlain [2]) wwwRoot "/a/%2e%2e/alias".toList ∧
      (Serve plainPolicy (fsPlain [1]) wwwRoot "/a/%2e%2e/alias".toList).status = 200 ∧
      (Serve plainPolicy (fsPlain [1]) wwwRoot "/a/%2e%2e/alias".toList).body = [104, 105] :=
  ⟨serve_same_response_links_inside plainPolicy (fsPlain [1]) (fsPlain [2]) _
      (fsPlain_agree [1] [2]) (fsPlain_linksStayInside [1]),
    by decide, by decide⟩

/-- C2, as stated, fails. The request `/%2e%2e/foo.txt` contains an encoded `..`
segment that ascends above the root; the mux hands it to the file server, and it is
answered with status 200 and the two bytes of `/www/foo.txt`: the `..` is dropped
at the root, not rejected. -/
theorem serve_traversal_answered_ok_counterexample :
    traversesAboveRoot "/%2e%2e/foo.txt".toList ∧
      GoProc.dispatch (GoProc.main GoProc.envServing GoProc.Process.initial).state
          ⟨"0.0.0.0:8080", none⟩ "/%2e%2e/foo.txt" =
        GoProc.MuxAnswer.handler (GoProc.FileServer (GoProc.Dir.mk "/www/")) ∧
      (Serve plainPolicy (fsPlain [1]) wwwRoot "/%2e%2e/foo.txt".toList).status = 200 ∧
      (Serve plainPolicy (fsPlain [1]) wwwRoot "/%2e%2e/foo.txt".toList).body = [104, 105] :=
  ⟨⟨"/../foo.txt".toList, by decide, by decide⟩, by decide, by decide, by decide⟩

/-- C2, amended. For every request path that contains, in some encoding, a `..`
segment ascending above the root, the `..` is clamped at the root: the response
(which can be 200) is the one for a name that has `/www/` as its leading part and
holds no empty, `.` or `..` segment. -/
theorem serve_traversal_clamped_inside_root (pol : Policy) (fs : FS)
    (requestPath : List Char) (h : traversesAboveRoot requestPath) :
    ∃ name : FsPath, lookedUp wwwRoot requestPath = some name ∧
      wwwRoot <+: name ∧
      (∀ s ∈ name, s ≠ [] ∧ s ≠ ['.'] ∧ s ≠ ['.', '.']) ∧
      Serve pol fs wwwRoot requestPath = respond pol fs requestPath name := by
  obtain ⟨decoded, hdec, _⟩ := h
  refine ⟨wwwRoot ++ normalize decoded, by simp [lookedUp, hdec], ⟨_, rfl⟩, ?_, ?_⟩
  · intro s hs
    rcases List.mem_append.1 hs with hroot | hrel
    · rw [wwwRoot_eq] at hroot
      simp only [List.mem_singleton] at hroot
      subst hroot
      decide
    · exact GoPath.collapse_ordinary _ [] (by simp) s hrel
  · simp [Serve, lookedUp, hdec]

/-- The amended C2 at the request `/a/%2E%2e/%2e%2e/etc/passwd` on a filesystem that
holds `/etc/passwd`: the name looked up is `/www/etc/passwd`, inside the root, and
the response is the 404 for that missing name. -/
theorem serve_traversal_clamped_inside_root_witness :
    traversesAboveRoot "/a/%2E%2e/%2e%2e/etc/passwd".toList ∧
      lookedUp wwwRoot "/a/%2E%2e/%2e%2e/etc/passwd".toList =
        some ["www".toList, "etc".toList, "passwd".toList] ∧
      (Serve plainPolicy (fsPlain [1]) wwwRoot "/a/%2E%2e/%2e%2e/etc/passwd".toList).status
        = 404 ∧
      ∃ name : FsPath, lookedUp wwwRoot "/a/%2E%2e/%2e%2e/etc/passwd".toList = some name ∧
        wwwRoot <+: name ∧
        (∀ s ∈ name, s ≠ [] ∧ s ≠ ['.'] ∧ s ≠ ['.', '.']) ∧
        Serve plainPolicy (fsPlain [1]) wwwRoot "/a/%2E%2e/%2e%2e/etc/passwd".toList =
          respond plainPolicy (fsPlain [1]) "/a/%2E%2e/%2e%2e/etc/passwd".toList name :=
  ⟨⟨"/a/../../etc/passwd".toList, by decide, by decide⟩, by decide, by decide,
    serve_traversal_clamped_inside_root plainPolicy (fsPlain [1]) _
      ⟨"/a/../../etc/passwd".toList, by decide, by decide⟩⟩

end StaticFiles
